import Mathlib

/-!
Shallow embedding of the core of the `netops` terminal network dashboard:
the hop-by-hop probe engine (`src/tools/mtr.rs`), the packet-capture
classification pipeline (`src/tools/sniffer.rs`) and the per-tick
aggregation layer (`src/app.rs`), together with theorems checking the
natural-language specification against these definitions.

Machine integers (`u64`, `u32`) are modelled as `Nat`; wrap-around is noted
explicitly wherever a cast or saturating operation occurs in the source.
`f64` percentages are modelled as exact rationals.
-/

namespace NetOps

/-- Bounded FIFO push as implemented throughout `App::tick` in `app.rs`:
`push_back(x)` followed by `if len > cap { pop_front(); }`.
A `VecDeque` is modelled as a list whose head is the oldest element. -/
def pushBounded (cap : Nat) (buf : List α) (x : α) : List α :=
  if cap < (buf ++ [x]).length then (buf ++ [x]).tail else buf ++ [x]

/-- A whole sequence of bounded pushes, oldest first. -/
def pushAll (cap : Nat) (buf : List α) (xs : List α) : List α :=
  xs.foldl (pushBounded cap) buf

/-- Duration, modelled in nanoseconds. -/
abbrev DurationNs := Nat

/-- Rust `Duration::MAX`: `u64::MAX` seconds plus `999_999_999` subsecond ns. -/
def durationMaxNs : DurationNs := (2 ^ 64 - 1) * 1000000000 + 999999999

/-- Rust `duration.as_millis() as u64` (millisecond count, truncating
`u128 -> u64` cast as in `app.rs`). -/
def asMillisU64 (d : DurationNs) : Nat := (d / 1000000) % 2 ^ 64

/-- One probe attempt result (`MtrResult` in `tools/mtr.rs`); the responder
IP address is modelled as a `Nat`. -/
structure MtrResult where
  ttl : Nat
  host : Option Nat
  rtt : DurationNs
  successful : Bool
  is_target : Bool
deriving Repr, DecidableEq

/-- Per-hop running statistics (`HopStats` in `tools/mtr.rs`).
The `u64` counters and millisecond values are modelled as `Nat` (successful
RTTs are bounded by the 1 s probe receive timeout and the counters by the
number of probes sent, far below `2^64`, so wrap-around is unreachable); the
`f64` loss percentage is modelled as an exact rational. -/
structure HopStats where
  ttl : Nat
  host : String
  sent : Nat
  recv : Nat
  last : Nat
  best : Nat
  worst : Nat
  avg : Nat
  loss : ℚ
  history : List Nat
  jitter : Nat
deriving Repr, DecidableEq

/-- The fresh `HopStats` entry used when `mtr_hops` is resized in `App::tick`
(`app.rs` lines 326-340): `best` starts at the `9999` sentinel, `worst` at 0. -/
def initHop (ttl : Nat) : HopStats :=
  { ttl := ttl, host := "???", sent := 0, recv := 0, last := 0, best := 9999,
    worst := 0, avg := 0, loss := 0, history := [], jitter := 0 }

/-- Absolute difference on `u64` exactly as written in `app.rs`:
`if time > last { time - last } else { last - time }`. -/
def absDiff (a b : Nat) : Nat := if b < a then a - b else b - a

/-- `loss = ((sent - recv) as f64 / sent as f64) * 100.0` (`app.rs` line 370),
modelled exactly in ℚ (the real value the rounded `f64` approximates; both lie
in the same `[0, 100]` range and agree at the exactly representable 0). -/
def lossPct (sent recv : Nat) : ℚ := ((sent - recv : ℕ) : ℚ) / (sent : ℚ) * 100

/-- Folding one `MtrResult` into its hop entry, exactly as the mtr drain arm of
`App::tick` mutates `hop` (`app.rs` lines 343-371): `sent += 1`; on success
`recv += 1`, host replaced by the responder (or the `"???"` placeholder),
jitter and avg updated as running means with truncating division, best/worst
updated under strict comparisons, `time` pushed into the capacity-100 history;
in all cases `loss` is finally recomputed from the updated counters. -/
def updateHop (hop : HopStats) (res : MtrResult) : HopStats :=
  let sent := hop.sent + 1
  if res.successful then
    let recv := hop.recv + 1
    let host := match res.host with
      | some h => toString h
      | none => "???"
    let time := asMillisU64 res.rtt
    let j := absDiff time hop.last
    let jitter := if 1 < recv then (hop.jitter * (recv - 1) + j) / recv else j
    let best := if time < hop.best then time else hop.best
    let worst := if hop.worst < time then time else hop.worst
    let avg := (hop.avg * (recv - 1) + time) / recv
    { hop with sent := sent, recv := recv, host := host, last := time,
               jitter := jitter, best := best, worst := worst, avg := avg,
               history := pushBounded 100 hop.history time,
               loss := lossPct sent recv }
  else
    { hop with sent := sent, loss := lossPct sent hop.recv }

/-- A successful probe result with RTT given in milliseconds, as delivered for
hop `ttl` by responder `h`. -/
def successAt (ttl : Nat) (h : Nat) (ms : Nat) : MtrResult :=
  { ttl := ttl, host := some h, rtt := ms * 1000000, successful := true,
    is_target := false }

/-- A failed (timed-out) probe result for hop `ttl`. -/
def failureAt (ttl : Nat) : MtrResult :=
  { ttl := ttl, host := none, rtt := durationMaxNs, successful := false,
    is_target := false }

/-- Direction of a captured frame relative to the capturing interface. -/
inductive Direction where
  | inbound
  | outbound
  | indeterminate
deriving Repr, DecidableEq

/-- Subnet membership test from `Sniffer::start`: the candidate address and
the network address agree under the mask of the network. IPv4 addresses and masks
are `u32`, modelled as `Nat`; `&` is `Nat.land`. -/
def inSubnet (addr : Nat) (p : Nat × Nat) : Bool :=
  Nat.land addr p.2 == Nat.land p.1 p.2

/-- Direction and LAN flag for an IPv4 frame, as computed by the flag-setting
block of `Sniffer::start` (`sniffer.rs` lines 111-160): inbound when the
destination is a bound local address (the source, the other endpoint of the flow,
is then tested against every bound (address, mask) pair, stopping at the first
match); otherwise outbound when the source is local (the destination is then
tested); otherwise neither flag is set. -/
def classifyV4 (localIps : List Nat) (networks : List (Nat × Nat))
    (source dest : Nat) : Direction × Bool :=
  if localIps.contains dest then
    (.inbound, networks.any (inSubnet source))
  else if localIps.contains source then
    (.outbound, networks.any (inSubnet dest))
  else
    (.indeterminate, false)

/-- Upper-layer protocol of an IPv4 frame, as far as the counters care. -/
inductive L4Proto where
  | tcp
  | udp
  | icmp
  | otherProto
deriving Repr, DecidableEq

/-- Strings are modelled as lists of Unicode code points. -/
abbrev Str := List Nat

/-- One classified captured frame (`PacketSummary` in `sniffer.rs`). -/
structure PacketSummary where
  time : Str
  source : Str
  destination : Str
  protocol : Str
  length : Str
  info : Str
deriving Repr, DecidableEq

/-- The parsed header data of one captured frame that drives counting and
classification in the capture loop. -/
inductive FrameKind where
  | ipv4 (source dest : Nat) (proto : L4Proto)
  | ipv6 (dest : Nat)
  | nonIp
deriving Repr, DecidableEq

/-- One captured frame: its parsed headers, its length on the wire, and the
`PacketSummary` that `parse_packet` produces for it (`none` for non-IP frames
and malformed headers, which `parse_packet` drops). The summary text fields
are carried as frame data since every claim treats them as opaque text. -/
structure Frame where
  kind : FrameKind
  len : Nat
  summary : Option PacketSummary
deriving Repr, DecidableEq

/-- The shared atomic `u64` counters of the sniffer (`Sniffer` in `sniffer.rs`);
the relaxed atomics are modelled as plain naturals since the capture thread is
their only writer. -/
structure Counters where
  packet_count : Nat
  in_packets : Nat
  out_packets : Nat
  wan_in_bytes : Nat
  wan_out_bytes : Nat
  lan_in_bytes : Nat
  lan_out_bytes : Nat
  tcp_packets : Nat
  udp_packets : Nat
deriving Repr, DecidableEq

/-- All counters start at zero (`Sniffer::new`). -/
def initCounters : Counters := ⟨0, 0, 0, 0, 0, 0, 0, 0, 0⟩

/-- Counter updates for one captured frame (`sniffer.rs` lines 105-190):
the total is always incremented; TCP/UDP protocol counters are incremented in
the IPv4 branch only, as in the source; then the direction/LAN flags select
the in/out packet counter and exactly one of the four byte counters.
IPv4 and IPv6 local addresses live in one `local_ips` vector in the source;
since a v4 address never equals a v6 address they are modelled as the two
lists `localIps` and `localIps6` (the IPv6 branch only tests the destination
and leaves the LAN flag false). -/
def stepCounters (localIps localIps6 : List Nat) (networks : List (Nat × Nat))
    (c : Counters) (f : Frame) : Counters :=
  let c := { c with packet_count := c.packet_count + 1 }
  let c :=
    match f.kind with
    | .ipv4 _ _ .tcp => { c with tcp_packets := c.tcp_packets + 1 }
    | .ipv4 _ _ .udp => { c with udp_packets := c.udp_packets + 1 }
    | _ => c
  let flags : Bool × Bool :=
    match f.kind with
    | .ipv4 s d _ =>
        let r := classifyV4 localIps networks s d
        (r.1 == .inbound, r.2)
    | .ipv6 d => (localIps6.contains d, false)
    | .nonIp => (false, false)
  if flags.1 then
    let c := { c with in_packets := c.in_packets + 1 }
    if flags.2 then { c with lan_in_bytes := c.lan_in_bytes + f.len }
    else { c with wan_in_bytes := c.wan_in_bytes + f.len }
  else
    let c := { c with out_packets := c.out_packets + 1 }
    if flags.2 then { c with lan_out_bytes := c.lan_out_bytes + f.len }
    else { c with wan_out_bytes := c.wan_out_bytes + f.len }

/-- ASCII lowercasing of one code point. Rust `to_lowercase` performs full
Unicode case folding; the A-Z subset is modelled, which covers every
case-bearing character of the texts the sniffer produces (protocol labels,
dotted/hex addresses, port and flag details). -/
def toLowerC (c : Nat) : Nat := if 65 ≤ c ∧ c ≤ 90 then c + 32 else c

/-- Lowercasing a whole string (`str::to_lowercase`). -/
def toLowerS (s : Str) : Str := s.map toLowerC

/-- ASCII whitespace test for `str::trim` (Rust trims the Unicode White_Space
set, of which this is the ASCII part). -/
def isWsC (c : Nat) : Bool := decide (c = 32 ∨ c = 9 ∨ c = 10 ∨ c = 13)

/-- Rust `str::trim`: drop whitespace from both ends. -/
def trimStr (s : Str) : Str :=
  ((s.dropWhile isWsC).reverse.dropWhile isWsC).reverse

/-- Filter preprocessing done once at the top of `Sniffer::start`:
`filter.trim().to_lowercase()`. -/
def mkFilter (raw : Str) : Str := toLowerS (trimStr raw)

/-- Rust `haystack.contains(needle)`: `needle` occurs as a contiguous
substring of `haystack`. -/
def isSubstr (needle : Str) : Str → Bool
  | [] => needle.isEmpty
  | c :: rest => needle.isPrefixOf (c :: rest) || isSubstr needle rest

/-- The emission filter check of `Sniffer::start` (`sniffer.rs` 194-201):
`matches` is true outright for an empty (preprocessed) filter, and otherwise
when the filter occurs in the lowercased source, destination, protocol or
info field of the summary. -/
def filterMatches (filter : Str) (s : PacketSummary) : Bool :=
  if filter.isEmpty then true
  else
    isSubstr filter (toLowerS s.source) ||
    isSubstr filter (toLowerS s.destination) ||
    isSubstr filter (toLowerS s.protocol) ||
    isSubstr filter (toLowerS s.info)

/-- What one capture-loop iteration sends to the consumer
(`sniffer.rs` 192-208): the parsed summary, if any, subject to the filter. -/
def emitted (filter : Str) (f : Frame) : Option PacketSummary :=
  match f.summary with
  | some s => if filterMatches filter s then some s else none
  | none => none

/-- One full capture-loop iteration on a frame: counters always update,
emission is subject to the filter. -/
def processFrame (localIps localIps6 : List Nat) (networks : List (Nat × Nat))
    (filter : Str) (c : Counters) (f : Frame) : Counters × Option PacketSummary :=
  (stepCounters localIps localIps6 networks c f, emitted filter f)

/-- Snapshot of the cumulative counter values at the previous tick
(the `last_*` fields of `App`). -/
structure LastCounts where
  packet : Nat
  rx : Nat
  tx : Nat
  wan_rx : Nat
  wan_tx : Nat
  lan_rx : Nat
  lan_tx : Nat
deriving Repr, DecidableEq

/-- Rust `u64::saturating_sub`: both operands are `u64` values below `2^64`,
so `Nat` truncated subtraction is exactly saturating subtraction. -/
def satSub (a b : Nat) : Nat := a - b

/-- The per-tick counter deltas computed in `App::tick`
(`app.rs` lines 416-448). -/
structure Rates where
  pps : Nat
  rx_pps : Nat
  tx_pps : Nat
  wan_rx_delta : Nat
  wan_tx_delta : Nat
  lan_rx_delta : Nat
  lan_tx_delta : Nat
deriving Repr, DecidableEq

/-- Rate computation of `App::tick`: every per-tick delta is a saturating
subtraction of the previous snapshot from the current cumulative counter.
The Mbps figures pushed to the bandwidth histories are the byte deltas times
`8 / 1_000_000 / elapsed_seconds`. -/
def tickRates (c : Counters) (last : LastCounts) : Rates :=
  { pps := satSub c.packet_count last.packet,
    rx_pps := satSub c.in_packets last.rx,
    tx_pps := satSub c.out_packets last.tx,
    wan_rx_delta := satSub c.wan_in_bytes last.wan_rx,
    wan_tx_delta := satSub c.wan_out_bytes last.wan_tx,
    lan_rx_delta := satSub c.lan_in_bytes last.lan_rx,
    lan_tx_delta := satSub c.lan_out_bytes last.lan_tx }

/-- Applying one `MtrResult` to the `mtr_hops` vector: when the TTL is beyond
the current length, `resize` pads with clones of one fresh filler entry (so
every padding entry carries the `ttl` of this result), then the entry at `ttl - 1`
is updated (`app.rs` lines 326-371). -/
def applyMtr (hops : List HopStats) (res : MtrResult) : List HopStats :=
  let hops :=
    if hops.length < res.ttl then
      hops ++ List.replicate (res.ttl - hops.length) (initHop res.ttl)
    else hops
  match hops[res.ttl - 1]? with
  | some hop => hops.set (res.ttl - 1) (updateHop hop res)
  | none => hops

/-- The producer channels and fold targets that `App::tick` drains each
period. Each channel is the FIFO list of its pending messages, head = oldest.
A ping result is modelled by its RTT in ms (only successful results touch the
RTT history) and a connection snapshot by the resulting active-connection
count: address parsing and GeoIP lookup are outside the draining contract. -/
structure TickState where
  pingCh : List Nat
  snifferCh : List PacketSummary
  mtrCh : List MtrResult
  connCh : List Nat
  ping_rtt_history : List Nat
  sniffer_packets : List PacketSummary
  mtr_hops : List HopStats
  connection_count_history : List Nat
deriving Repr, DecidableEq

/-- One `App::tick` pass over the four producer channels, in source order
(`app.rs`: ping 211-245, sniffer 254-265, connections 267-312, mtr 322-373).
The ping, sniffer and mtr arms loop on `try_recv` until the channel reports
empty; the connections arm is a single `if let Ok(..) = rx.try_recv()`,
consuming at most one pending snapshot per tick. -/
def tickDrain (st : TickState) : TickState :=
  let st := { st with
    ping_rtt_history := pushAll 100 st.ping_rtt_history st.pingCh,
    pingCh := [] }
  let st := { st with
    sniffer_packets := pushAll 1000 st.sniffer_packets st.snifferCh,
    snifferCh := [] }
  let st :=
    match st.connCh with
    | c :: rest =>
        { st with
          connection_count_history :=
            pushBounded 100 st.connection_count_history c,
          connCh := rest }
    | [] => st
  let st := { st with
    mtr_hops := st.mtrCh.foldl applyMtr st.mtr_hops,
    mtrCh := [] }
  st

/-- What a probe receive attempt produced before the `MtrResult` is built:
either some datagram arrived (with the sender address `recv_from` reported,
when it is an IP socket address, and the elapsed time since the send), or the
receive timed out / failed. -/
inductive RecvOutcome where
  | got (sender : Option Nat) (elapsed : DurationNs)
  | timedOut
deriving Repr, DecidableEq

/-- Result construction of `probe` in `tools/mtr.rs` (lines 224-252): any
received datagram is a success with the sender as responder and the elapsed
time as RTT; a receive error or timeout yields the failure result with the
`Duration::MAX` sentinel RTT. -/
def probeResult (target ttl : Nat) : RecvOutcome → MtrResult
  | .got sender elapsed =>
      { ttl := ttl, host := sender, rtt := elapsed, successful := true,
        is_target := sender == some target }
  | .timedOut =>
      { ttl := ttl, host := none, rtt := durationMaxNs, successful := false,
        is_target := false }

section BufferLemmas

variable {α : Type}

theorem pushBounded_of_lt (cap : Nat) (buf : List α) (x : α)
    (h : buf.length < cap) : pushBounded cap buf x = buf ++ [x] := by
  have hc : ¬ cap < (buf ++ [x]).length := by simp; omega
  unfold pushBounded
  rw [if_neg hc]

theorem pushBounded_of_eq (cap : Nat) (buf : List α) (x : α)
    (h : buf.length = cap) : pushBounded cap buf x = (buf ++ [x]).tail := by
  have hc : cap < (buf ++ [x]).length := by simp; omega
  unfold pushBounded
  rw [if_pos hc]

theorem pushAll_eq_drop (cap : Nat) (xs : List α) :
    ∀ (buf : List α), buf.length ≤ cap →
      pushAll cap buf xs = (buf ++ xs).drop (buf.length + xs.length - cap) := by
  induction xs with
  | nil =>
      intro buf h
      simp [pushAll, Nat.sub_eq_zero_of_le h]
  | cons x xs ih =>
      intro buf h
      have hstep : pushAll cap buf (x :: xs) =
          pushAll cap (pushBounded cap buf x) xs := rfl
      rw [hstep]
      by_cases hlt : buf.length < cap
      · rw [pushBounded_of_lt cap buf x hlt,
            ih (buf ++ [x]) (by simp; omega)]
        have hap : (buf ++ [x]) ++ xs = buf ++ x :: xs := by simp
        rw [hap]
        congr 1
        simp
        omega
      · have hbe : buf.length = cap := by omega
        rw [pushBounded_of_eq cap buf x hbe]
        have hlen : ((buf ++ [x]).tail).length = cap := by simp [hbe]
        rw [ih _ (le_of_eq hlen), hlen]
        have h1 : ((buf ++ [x]).tail) ++ xs = (buf ++ x :: xs).tail := by
          cases buf <;> simp
        rw [h1, ← List.drop_one, List.drop_drop]
        congr 1
        simp
        omega

theorem pushAll_length_le (cap : Nat) (buf xs : List α)
    (h : buf.length ≤ cap) : (pushAll cap buf xs).length ≤ cap := by
  rw [pushAll_eq_drop cap xs buf h]
  simp
  omega

theorem pushAll_last (cap : Nat) (buf xs : List α) (h : buf.length ≤ cap)
    (hx : cap ≤ xs.length) :
    pushAll cap buf xs = xs.drop (xs.length - cap) := by
  rw [pushAll_eq_drop cap xs buf h, List.drop_append_eq_append_drop]
  have h1 : buf.drop (buf.length + xs.length - cap) = [] :=
    List.drop_eq_nil_of_le (by omega)
  rw [h1]
  simp
  congr 1
  omega

end BufferLemmas

section HopLemmas

theorem absDiff_eq_natAbs (a b : Nat) : absDiff a b = ((a : ℤ) - b).natAbs := by
  unfold absDiff
  split <;> omega

theorem lossPct_nonneg (s r : Nat) : 0 ≤ lossPct s r := by
  unfold lossPct
  positivity

theorem lossPct_le_100 (s r : Nat) : lossPct s r ≤ 100 := by
  unfold lossPct
  rcases Nat.eq_zero_or_pos s with hs | hs
  · simp [hs]
  · have h1 : ((s - r : ℕ) : ℚ) / (s : ℚ) ≤ 1 := by
      rw [div_le_one (by exact_mod_cast hs)]
      exact_mod_cast Nat.sub_le s r
    calc ((s - r : ℕ) : ℚ) / (s : ℚ) * 100 ≤ 1 * 100 :=
          mul_le_mul_of_nonneg_right h1 (by norm_num)
      _ = 100 := by norm_num

theorem updateHop_sent (hop : HopStats) (r : MtrResult) :
    (updateHop hop r).sent = hop.sent + 1 := by
  unfold updateHop
  split <;> rfl

theorem updateHop_recv (hop : HopStats) (r : MtrResult) :
    (updateHop hop r).recv = if r.successful then hop.recv + 1 else hop.recv := by
  unfold updateHop
  split <;> simp_all

theorem updateHop_loss (hop : HopStats) (r : MtrResult) :
    (updateHop hop r).loss = lossPct (hop.sent + 1) ((updateHop hop r).recv) := by
  unfold updateHop
  split <;> rfl

theorem foldl_updateHop_invariant (rs : List MtrResult) :
    ∀ (hop : HopStats), hop.recv ≤ hop.sent → 0 ≤ hop.loss → hop.loss ≤ 100 →
      (rs.foldl updateHop hop).recv ≤ (rs.foldl updateHop hop).sent ∧
      0 ≤ (rs.foldl updateHop hop).loss ∧ (rs.foldl updateHop hop).loss ≤ 100 := by
  induction rs with
  | nil => exact fun hop h1 h2 h3 => ⟨h1, h2, h3⟩
  | cons r rs ih =>
      intro hop h1 _ _
      have hstep : (updateHop hop r).recv ≤ (updateHop hop r).sent := by
        rw [updateHop_sent, updateHop_recv]
        split <;> omega
      exact ih (updateHop hop r) hstep
        (by rw [updateHop_loss]; exact lossPct_nonneg _ _)
        (by rw [updateHop_loss]; exact lossPct_le_100 _ _)

end HopLemmas

/-- C4: for every sequence of probe results delivered for a fixed ttl and
folded into its hop entry (starting from the fresh entry, as `App::tick`
creates it), the received counter never exceeds the sent counter and the loss
percentage — recomputed as `(sent - received) / sent * 100.0` after every
update, with failed results incrementing sent only — always lies in [0, 100]. -/
theorem hop_counters_loss_invariant (ttl : Nat) (rs : List MtrResult) :
    (rs.foldl updateHop (initHop ttl)).recv ≤ (rs.foldl updateHop (initHop ttl)).sent ∧
    0 ≤ (rs.foldl updateHop (initHop ttl)).loss ∧
    (rs.foldl updateHop (initHop ttl)).loss ≤ 100 :=
  foldl_updateHop_invariant rs (initHop ttl) (by simp [initHop])
    (by simp [initHop]) (by simp [initHop])

/-- C3: for every bounded history buffer capacity and any sequence of pushes
(starting from any contents within capacity, covering both the empty and the
zero-prefilled initial buffers of `App::new`), the length never exceeds the
capacity, and after `capacity + 1` pushes the buffer holds exactly the last
`capacity` values pushed, oldest first. -/
theorem bounded_buffer_spec (cap : Nat) (buf xs : List Nat)
    (hbuf : buf.length ≤ cap) :
    (pushAll cap buf xs).length ≤ cap ∧
    (xs.length = cap + 1 → pushAll cap buf xs = xs.drop 1) := by
  refine ⟨pushAll_length_le cap buf xs hbuf, fun hx => ?_⟩
  rw [pushAll_last cap buf xs hbuf (by omega), hx]
  simp

/-- Witness for C3 at capacity 3: four pushes into an empty buffer keep the
length at 3 and leave the last three values, oldest first. -/
theorem bounded_buffer_spec_witness :
    (pushAll 3 ([] : List Nat) [10, 20, 30, 40]).length ≤ 3 ∧
    pushAll 3 ([] : List Nat) [10, 20, 30, 40] = [20, 30, 40] := by
  have h := bounded_buffer_spec 3 [] [10, 20, 30, 40] (by decide)
  exact ⟨h.1, (h.2 (by decide)).trans (by decide)⟩

/-- C9: construction of the probe result in `probe` (`tools/mtr.rs`): a
receive timeout or failure yields succeeded false, responder none, RTT the
`Duration::MAX` sentinel and is_target false; any received datagram yields
succeeded true with the sender as responder and the elapsed time as RTT. -/
theorem probe_result_spec (target ttl : Nat) (sender : Option Nat)
    (elapsed : DurationNs) :
    probeResult target ttl .timedOut =
      { ttl := ttl, host := none, rtt := durationMaxNs, successful := false,
        is_target := false } ∧
    (probeResult target ttl (.got sender elapsed)).successful = true ∧
    (probeResult target ttl (.got sender elapsed)).host = sender ∧
    (probeResult target ttl (.got sender elapsed)).rtt = elapsed :=
  ⟨rfl, rfl, rfl, rfl⟩

/-- C1: the hop aggregator update for one successful result: sent and
received each increase by one; best and worst become the min/max with the new
time; avg follows the truncating-division running mean
`((avg * (received - 1)) + time) / received`; jitter is `|time|` on the first
success of a fresh entry and
`((jitter * (received - 1)) + |time - last|) / received` afterwards; the time
is pushed into the capacity-100 history and recorded as last. The
[10, 20, 30] ms success run from a fresh hop yields exactly best 10, worst 30,
avg 20, sent 3, received 3, loss 0 and jitter 10. -/
theorem hop_update_success_spec :
    (∀ (hop : HopStats) (res : MtrResult) (t : Nat) (h2 : HopStats),
      res.successful = true → t = asMillisU64 res.rtt → h2 = updateHop hop res →
      h2.sent = hop.sent + 1 ∧
      h2.recv = hop.recv + 1 ∧
      h2.best = min hop.best t ∧
      h2.worst = max hop.worst t ∧
      h2.avg = (hop.avg * hop.recv + t) / (hop.recv + 1) ∧
      (hop.recv = 0 → hop.last = 0 → h2.jitter = t) ∧
      (0 < hop.recv →
        h2.jitter = (hop.jitter * hop.recv + ((t : ℤ) - (hop.last : ℤ)).natAbs) /
          (hop.recv + 1)) ∧
      h2.history = pushBounded 100 hop.history t ∧
      h2.last = t) ∧
    (let f := [successAt 1 7 10, successAt 1 7 20, successAt 1 7 30].foldl
        updateHop (initHop 1)
     f.best = 10 ∧ f.worst = 30 ∧ f.avg = 20 ∧ f.sent = 3 ∧ f.recv = 3 ∧
     f.loss = 0 ∧ f.jitter = 10 ∧ f.history = [10, 20, 30] ∧ f.last = 30) := by
  constructor
  · rintro hop res t h2 hs ht hh
    subst ht hh
    simp only [updateHop, hs, eq_self_iff_true, if_true, Nat.add_sub_cancel,
      true_and, and_true]
    refine ⟨?_, ?_, ?_, ?_⟩
    · split <;> omega
    · split <;> omega
    · intro h0 hlast
      rw [h0, hlast]
      have hc : ¬ (1 < 0 + 1) := by omega
      rw [if_neg hc]
      unfold absDiff
      split <;> omega
    · intro h0
      have hc : 1 < hop.recv + 1 := by omega
      rw [if_pos hc, ← absDiff_eq_natAbs]
  · refine ⟨by decide, by decide, by decide, by decide, by decide, ?_,
      by decide, by decide, by decide⟩
    have hloss : ([successAt 1 7 10, successAt 1 7 20, successAt 1 7 30].foldl
        updateHop (initHop 1)).loss = lossPct 3 3 := rfl
    rw [hloss]
    norm_num [lossPct]

/-- Witness for C1: the update theorem applied to a fresh hop and one concrete
successful 10 ms result. -/
theorem hop_update_success_spec_witness :
    (updateHop (initHop 1) (successAt 1 7 10)).best = 10 ∧
    (updateHop (initHop 1) (successAt 1 7 10)).jitter = 10 ∧
    (updateHop (initHop 1) (successAt 1 7 10)).sent = 1 := by
  have h := hop_update_success_spec.1 (initHop 1) (successAt 1 7 10) 10
    (updateHop (initHop 1) (successAt 1 7 10)) rfl (by decide) rfl
  refine ⟨?_, ?_, ?_⟩
  · rw [h.2.2.1]
    decide
  · exact h.2.2.2.2.2.1 rfl rfl
  · rw [h.1]
    decide

/-- Counterexample to C8 as stated: `best` starts at the 9999 ms sentinel,
which does not behave as infinity for every possible RTT — a first success of
10000 ms on a fresh entry leaves best at 9999 instead of 10000. -/
theorem hop_best_sentinel_cex :
    (updateHop (initHop 1) (successAt 1 7 10000)).best = 9999 ∧
    (updateHop (initHop 1) (successAt 1 7 10000)).best ≠ 10000 := by
  exact ⟨by decide, by decide⟩

/-- C8 amended: `best` starts at the 9999 sentinel and `worst` at 0; the
first successful result on a fresh entry yields worst = time for every time,
and best = min time 9999 — equal to the time exactly when it is at most the
9999 sentinel (which covers every RTT the 1 s probe timeout can produce). -/
theorem hop_first_success_best_worst (ttl : Nat) (res : MtrResult)
    (hs : res.successful = true) :
    (initHop ttl).best = 9999 ∧
    (initHop ttl).worst = 0 ∧
    (updateHop (initHop ttl) res).worst = asMillisU64 res.rtt ∧
    (updateHop (initHop ttl) res).best = min (asMillisU64 res.rtt) 9999 ∧
    (asMillisU64 res.rtt ≤ 9999 →
      (updateHop (initHop ttl) res).best = asMillisU64 res.rtt) := by
  refine ⟨rfl, rfl, ?_, ?_, ?_⟩ <;>
    simp only [updateHop, hs, eq_self_iff_true, if_true, initHop]
  · split <;> omega
  · split <;> omega
  · intro h
    split <;> omega

/-- Witness for the amended C8 at a concrete 5 ms first success. -/
theorem hop_first_success_best_worst_witness :
    (updateHop (initHop 1) (successAt 1 7 5)).worst = 5 ∧
    (updateHop (initHop 1) (successAt 1 7 5)).best = 5 := by
  have h := hop_first_success_best_worst 1 (successAt 1 7 5) rfl
  refine ⟨?_, ?_⟩
  · rw [h.2.2.1]
    decide
  · rw [h.2.2.2.2 (by decide)]
    decide

/-- Counterexample to C5 as stated: with two connection snapshots pending at
the start of a tick, one of them is still pending after the tick — the
connection-snapshot channel is polled once per tick, not drained to
exhaustion. -/
theorem tick_drain_cex :
    (tickDrain { pingCh := [], snifferCh := [], mtrCh := [], connCh := [4, 5],
                 ping_rtt_history := [], sniffer_packets := [], mtr_hops := [],
                 connection_count_history := [] }).connCh = [5] := by
  decide

/-- C5 amended: one tick drains the ping, capture and probe channels to
exhaustion without blocking, but consumes at most one pending connection
snapshot (the oldest), leaving any remaining snapshots pending. -/
theorem tick_drain_spec (st : TickState) :
    (tickDrain st).pingCh = [] ∧
    (tickDrain st).snifferCh = [] ∧
    (tickDrain st).mtrCh = [] ∧
    (tickDrain st).connCh = st.connCh.tail := by
  cases hc : st.connCh <;> simp [tickDrain, hc]

/-- C7: every per-tick rate/delta computed over the cumulative counters is a
saturating subtraction: as an integer it equals `max 0 (current - previous)`,
hence is never negative; in particular when every counter has reset to zero,
every delta is 0 for any previous snapshot — the same holds for the byte
deltas feeding the Mbps bandwidth computation. -/
theorem tick_rates_saturating (c : Counters) (last : LastCounts) :
    ((tickRates c last).pps : ℤ) = max 0 ((c.packet_count : ℤ) - last.packet) ∧
    ((tickRates c last).rx_pps : ℤ) = max 0 ((c.in_packets : ℤ) - last.rx) ∧
    ((tickRates c last).tx_pps : ℤ) = max 0 ((c.out_packets : ℤ) - last.tx) ∧
    ((tickRates c last).wan_rx_delta : ℤ) =
      max 0 ((c.wan_in_bytes : ℤ) - last.wan_rx) ∧
    ((tickRates c last).wan_tx_delta : ℤ) =
      max 0 ((c.wan_out_bytes : ℤ) - last.wan_tx) ∧
    ((tickRates c last).lan_rx_delta : ℤ) =
      max 0 ((c.lan_in_bytes : ℤ) - last.lan_rx) ∧
    ((tickRates c last).lan_tx_delta : ℤ) =
      max 0 ((c.lan_out_bytes : ℤ) - last.lan_tx) ∧
    tickRates initCounters last = ⟨0, 0, 0, 0, 0, 0, 0⟩ := by
  refine ⟨?_, ?_, ?_, ?_, ?_, ?_, ?_, ?_⟩ <;>
    simp only [tickRates, satSub, initCounters]
  · omega
  · omega
  · omega
  · omega
  · omega
  · omega
  · omega
  · simp [Nat.zero_sub]

/-- C2: capture direction and LAN/WAN classification for IPv4 frames —
inbound when the destination is a bound local address (the source, the other
endpoint, is then the LAN test subject), otherwise outbound when the source
is local (the destination is then tested), otherwise indeterminate with the
LAN flag left false; and the LAN test succeeds exactly when some bound
(address, mask) pair satisfies `endpoint AND mask = address AND mask`. -/
theorem capture_classify_spec (L : List Nat) (N : List (Nat × Nat))
    (s d : Nat) :
    (d ∈ L → classifyV4 L N s d = (.inbound, N.any (inSubnet s))) ∧
    (d ∉ L → s ∈ L → classifyV4 L N s d = (.outbound, N.any (inSubnet d))) ∧
    (d ∉ L → s ∉ L → classifyV4 L N s d = (.indeterminate, false)) ∧
    (N.any (inSubnet s) = true ↔
      ∃ p ∈ N, Nat.land s p.2 = Nat.land p.1 p.2) := by
  refine ⟨fun hd => ?_, fun hd hs => ?_, fun hd hs => ?_, ?_⟩
  · simp [classifyV4, hd]
  · simp [classifyV4, hd, hs]
  · simp [classifyV4, hd, hs]
  · simp [List.any_eq_true, inSubnet, beq_iff_eq]

/-- Witness for C2: with local address 192.168.1.5/24 bound, a frame from
192.168.1.7 to the local address is inbound LAN, and a frame from the local
address to 8.8.8.8 (outside every bound subnet) is outbound WAN. -/
theorem capture_classify_spec_witness :
    classifyV4 [0xC0A80105] [(0xC0A80105, 0xFFFFFF00)] 0xC0A80107 0xC0A80105 =
      (.inbound, true) ∧
    classifyV4 [0xC0A80105] [(0xC0A80105, 0xFFFFFF00)] 0xC0A80105 0x08080808 =
      (.outbound, false) := by
  have h1 := (capture_classify_spec [0xC0A80105] [(0xC0A80105, 0xFFFFFF00)]
    0xC0A80107 0xC0A80105).1 (by decide)
  have h2 := (capture_classify_spec [0xC0A80105] [(0xC0A80105, 0xFFFFFF00)]
    0xC0A80105 0x08080808).2.1 (by decide) (by decide)
  exact ⟨h1.trans (by decide), h2.trans (by decide)⟩

section CounterLemmas

set_option linter.unusedTactic false in
theorem stepCounters_io (L4 L6 : List Nat) (N : List (Nat × Nat))
    (c : Counters) (f : Frame) :
    (stepCounters L4 L6 N c f).packet_count = c.packet_count + 1 ∧
    (((stepCounters L4 L6 N c f).in_packets = c.in_packets + 1 ∧
      (stepCounters L4 L6 N c f).out_packets = c.out_packets ∧
      (((stepCounters L4 L6 N c f).lan_in_bytes = c.lan_in_bytes + f.len ∧
        (stepCounters L4 L6 N c f).wan_in_bytes = c.wan_in_bytes) ∨
       ((stepCounters L4 L6 N c f).wan_in_bytes = c.wan_in_bytes + f.len ∧
        (stepCounters L4 L6 N c f).lan_in_bytes = c.lan_in_bytes)) ∧
      (stepCounters L4 L6 N c f).lan_out_bytes = c.lan_out_bytes ∧
      (stepCounters L4 L6 N c f).wan_out_bytes = c.wan_out_bytes) ∨
     ((stepCounters L4 L6 N c f).out_packets = c.out_packets + 1 ∧
      (stepCounters L4 L6 N c f).in_packets = c.in_packets ∧
      (((stepCounters L4 L6 N c f).lan_out_bytes = c.lan_out_bytes + f.len ∧
        (stepCounters L4 L6 N c f).wan_out_bytes = c.wan_out_bytes) ∨
       ((stepCounters L4 L6 N c f).wan_out_bytes = c.wan_out_bytes + f.len ∧
        (stepCounters L4 L6 N c f).lan_out_bytes = c.lan_out_bytes)) ∧
      (stepCounters L4 L6 N c f).lan_in_bytes = c.lan_in_bytes ∧
      (stepCounters L4 L6 N c f).wan_in_bytes = c.wan_in_bytes)) := by
  obtain ⟨kind, len, summ⟩ := f
  cases kind with
  | ipv4 s d proto =>
      cases proto <;>
        (simp only [stepCounters]
         split <;> (try split) <;>
           first
             | exact ⟨rfl, Or.inl ⟨rfl, rfl, Or.inl ⟨rfl, rfl⟩, rfl, rfl⟩⟩
             | exact ⟨rfl, Or.inl ⟨rfl, rfl, Or.inr ⟨rfl, rfl⟩, rfl, rfl⟩⟩
             | exact ⟨rfl, Or.inr ⟨rfl, rfl, Or.inl ⟨rfl, rfl⟩, rfl, rfl⟩⟩
             | exact ⟨rfl, Or.inr ⟨rfl, rfl, Or.inr ⟨rfl, rfl⟩, rfl, rfl⟩⟩)
  | ipv6 d =>
      simp only [stepCounters]
      split <;> (try split) <;>
        first
          | exact ⟨rfl, Or.inl ⟨rfl, rfl, Or.inl ⟨rfl, rfl⟩, rfl, rfl⟩⟩
          | exact ⟨rfl, Or.inl ⟨rfl, rfl, Or.inr ⟨rfl, rfl⟩, rfl, rfl⟩⟩
          | exact ⟨rfl, Or.inr ⟨rfl, rfl, Or.inl ⟨rfl, rfl⟩, rfl, rfl⟩⟩
          | exact ⟨rfl, Or.inr ⟨rfl, rfl, Or.inr ⟨rfl, rfl⟩, rfl, rfl⟩⟩
  | nonIp =>
      simp only [stepCounters]
      split <;> (try split) <;>
        first
          | exact ⟨rfl, Or.inl ⟨rfl, rfl, Or.inl ⟨rfl, rfl⟩, rfl, rfl⟩⟩
          | exact ⟨rfl, Or.inl ⟨rfl, rfl, Or.inr ⟨rfl, rfl⟩, rfl, rfl⟩⟩
          | exact ⟨rfl, Or.inr ⟨rfl, rfl, Or.inl ⟨rfl, rfl⟩, rfl, rfl⟩⟩
          | exact ⟨rfl, Or.inr ⟨rfl, rfl, Or.inr ⟨rfl, rfl⟩, rfl, rfl⟩⟩

theorem foldl_stepCounters_total (L4 L6 : List Nat) (N : List (Nat × Nat))
    (fs : List Frame) :
    ∀ c : Counters, c.packet_count = c.in_packets + c.out_packets →
      (fs.foldl (stepCounters L4 L6 N) c).packet_count =
        (fs.foldl (stepCounters L4 L6 N) c).in_packets +
          (fs.foldl (stepCounters L4 L6 N) c).out_packets := by
  induction fs with
  | nil => exact fun c h => h
  | cons f fs ih =>
      intro c h
      apply ih
      have h1 := stepCounters_io L4 L6 N c f
      rcases h1.2 with ⟨hi, ho, _⟩ | ⟨ho, hi, _⟩ <;> omega

end CounterLemmas

/-- C10: every captured frame increments the total packet counter; it also
increments exactly one of the inbound/outbound packet counters and adds its
length to exactly one of the four byte counters (LAN-in, WAN-in, LAN-out,
WAN-out); folding any frame sequence from the zeroed counters keeps
total = inbound + outbound; and frames of indeterminate direction — non-IP
frames, and IPv4 frames with neither endpoint local — are counted on the
outbound side (into the WAN-out byte counter). -/
theorem capture_counter_partition (L4 L6 : List Nat) (N : List (Nat × Nat))
    (c : Counters) (f : Frame) (fs : List Frame) (s d len : Nat)
    (summ : Option PacketSummary) (proto : L4Proto)
    (hd : d ∉ L4) (hs : s ∉ L4) :
    (stepCounters L4 L6 N c f).packet_count = c.packet_count + 1 ∧
    ((stepCounters L4 L6 N c f).in_packets +
        (stepCounters L4 L6 N c f).out_packets =
      c.in_packets + c.out_packets + 1) ∧
    ((stepCounters L4 L6 N c f).in_packets = c.in_packets ∨
      (stepCounters L4 L6 N c f).out_packets = c.out_packets) ∧
    ((stepCounters L4 L6 N c f).wan_in_bytes +
        (stepCounters L4 L6 N c f).wan_out_bytes +
        (stepCounters L4 L6 N c f).lan_in_bytes +
        (stepCounters L4 L6 N c f).lan_out_bytes =
      c.wan_in_bytes + c.wan_out_bytes + c.lan_in_bytes + c.lan_out_bytes +
        f.len) ∧
    ((fs.foldl (stepCounters L4 L6 N) initCounters).packet_count =
      (fs.foldl (stepCounters L4 L6 N) initCounters).in_packets +
        (fs.foldl (stepCounters L4 L6 N) initCounters).out_packets) ∧
    stepCounters L4 L6 N c ⟨.nonIp, len, summ⟩ =
      { c with packet_count := c.packet_count + 1,
               out_packets := c.out_packets + 1,
               wan_out_bytes := c.wan_out_bytes + len } ∧
    ((stepCounters L4 L6 N c ⟨.ipv4 s d proto, len, summ⟩).out_packets =
        c.out_packets + 1 ∧
      (stepCounters L4 L6 N c ⟨.ipv4 s d proto, len, summ⟩).wan_out_bytes =
        c.wan_out_bytes + len) := by
  have h1 := stepCounters_io L4 L6 N c f
  refine ⟨h1.1, ?_, ?_, ?_, foldl_stepCounters_total L4 L6 N fs initCounters rfl,
    ?_, ?_⟩
  · rcases h1.2 with ⟨hi, ho, _⟩ | ⟨ho, hi, _⟩ <;> omega
  · rcases h1.2 with ⟨_, ho, _⟩ | ⟨_, hi, _⟩
    · exact Or.inr ho
    · exact Or.inl hi
  · rcases h1.2 with ⟨_, _, hb | hb, h3, h4⟩ | ⟨_, _, hb | hb, h3, h4⟩ <;>
      omega
  · rfl
  · cases proto <;> simp [stepCounters, classifyV4, hd, hs]

/-- Witness for C10 at concrete inputs: one non-IP frame from the zeroed
counters keeps total = in + out, and an IPv4 frame between two non-local
addresses is counted outbound. -/
theorem capture_counter_partition_witness :
    (([⟨.nonIp, 60, none⟩] : List Frame).foldl (stepCounters [5] [] [])
        initCounters).packet_count =
      (([⟨.nonIp, 60, none⟩] : List Frame).foldl (stepCounters [5] [] [])
        initCounters).in_packets +
      (([⟨.nonIp, 60, none⟩] : List Frame).foldl (stepCounters [5] [] [])
        initCounters).out_packets ∧
    (stepCounters [5] [] [] initCounters
        ⟨.ipv4 1 2 .tcp, 60, none⟩).out_packets =
      initCounters.out_packets + 1 := by
  have h := capture_counter_partition [5] [] [] initCounters
    ⟨.nonIp, 60, none⟩ [⟨.nonIp, 60, none⟩] 1 2 60 none .tcp
    (by decide) (by decide)
  exact ⟨h.2.2.2.2.1, h.2.2.2.2.2.2.1⟩

section FilterLemmas

theorem isSubstr_iff (needle hay : Str) :
    isSubstr needle hay = true ↔ needle <:+: hay := by
  induction hay with
  | nil => simp [isSubstr, List.isEmpty_iff, List.infix_nil]
  | cons c rest ih =>
      simp [isSubstr, Bool.or_eq_true, ih, List.infix_cons_iff]

theorem toLowerC_idem (c : Nat) : toLowerC (toLowerC c) = toLowerC c := by
  unfold toLowerC
  split_ifs <;> omega

theorem isWsC_toLowerC (c : Nat) : isWsC (toLowerC c) = isWsC c := by
  unfold toLowerC isWsC
  split_ifs with h
  · rw [decide_eq_decide]
    omega
  · rfl

theorem toLowerS_idem (s : Str) : toLowerS (toLowerS s) = toLowerS s := by
  unfold toLowerS
  rw [List.map_map]
  have hcomp : toLowerC ∘ toLowerC = toLowerC := funext toLowerC_idem
  rw [hcomp]

theorem trimStr_toLowerS (s : Str) :
    trimStr (toLowerS s) = toLowerS (trimStr s) := by
  have hws : isWsC ∘ toLowerC = isWsC := funext isWsC_toLowerC
  unfold trimStr toLowerS
  rw [List.dropWhile_map, hws, ← List.map_reverse, List.dropWhile_map, hws,
    ← List.map_reverse]

theorem mkFilter_toLowerS (raw : Str) :
    mkFilter (toLowerS raw) = mkFilter raw := by
  unfold mkFilter
  rw [trimStr_toLowerS, toLowerS_idem]

end FilterLemmas

/-- C6: the capture filter and the counters are independent — the counter
update of one loop iteration does not depend on the filter at all, while a
summary is emitted exactly when the frame parsed to it and it passes the
filter check; an empty filter matches everything; a non-empty filter matches
exactly when it occurs as a substring of one of the four case-folded fields
(source, destination, protocol, info); and matching is case-insensitive both
in the raw filter (which `Sniffer::start` case-folds once) and in the
summary fields (compared case-folded). -/
theorem capture_filter_spec :
    (∀ (L4 L6 : List Nat) (N : List (Nat × Nat)) (f1 f2 : Str) (c : Counters)
        (fr : Frame),
      (processFrame L4 L6 N f1 c fr).1 = (processFrame L4 L6 N f2 c fr).1) ∧
    (∀ (filt : Str) (fr : Frame) (s : PacketSummary),
      emitted filt fr = some s ↔
        fr.summary = some s ∧ filterMatches filt s = true) ∧
    (∀ s : PacketSummary, filterMatches [] s = true) ∧
    (∀ (filt : Str) (s : PacketSummary), filt ≠ [] →
      (filterMatches filt s = true ↔
        (filt <:+: toLowerS s.source ∨ filt <:+: toLowerS s.destination ∨
         filt <:+: toLowerS s.protocol ∨ filt <:+: toLowerS s.info))) ∧
    (∀ (raw : Str) (s : PacketSummary),
      filterMatches (mkFilter (toLowerS raw)) s =
        filterMatches (mkFilter raw) s) ∧
    (∀ (filt : Str) (s s2 : PacketSummary),
      toLowerS s.source = toLowerS s2.source →
      toLowerS s.destination = toLowerS s2.destination →
      toLowerS s.protocol = toLowerS s2.protocol →
      toLowerS s.info = toLowerS s2.info →
      filterMatches filt s = filterMatches filt s2) := by
  refine ⟨fun _ _ _ _ _ _ _ => rfl, ?_, fun _ => rfl, ?_, ?_, ?_⟩
  · intro filt fr s
    cases hsum : fr.summary with
    | none => simp [emitted, hsum]
    | some s0 =>
        simp only [emitted, hsum]
        split
        · rename_i hm
          constructor
          · intro h1
            obtain rfl := Option.some.inj h1
            exact ⟨rfl, hm⟩
          · exact fun h1 => h1.1
        · rename_i hm
          constructor
          · intro h1
            exact absurd h1 (by simp)
          · rintro ⟨h1, h2⟩
            obtain rfl := Option.some.inj h1
            exact absurd h2 hm
  · intro filt s hne
    cases filt with
    | nil => exact absurd rfl hne
    | cons a l =>
        simp [filterMatches, Bool.or_eq_true, isSubstr_iff]
        tauto
  · intro raw s
    rw [mkFilter_toLowerS]
  · intro filt s s2 h1 h2 h3 h4
    unfold filterMatches
    rw [h1, h2, h3, h4]

/-- Witness for C6: the lowercase filter "tcp" matches a summary whose
protocol field is "TCP", and the empty filter matches it too. -/
theorem capture_filter_spec_witness :
    filterMatches [116, 99, 112]
      ⟨[], [57], [56], [84, 67, 80], [54], [88]⟩ = true ∧
    filterMatches [] ⟨[], [57], [56], [84, 67, 80], [54], [88]⟩ = true := by
  refine ⟨?_, capture_filter_spec.2.2.1 _⟩
  exact (capture_filter_spec.2.2.2.1 [116, 99, 112] _ (by decide)).mpr
    (Or.inr (Or.inr (Or.inl (by decide))))

end NetOps
